import Mathlib

/-!
Shallow embedding of `src/p2p_time_sync.py` (P2P clock synchronization daemon).

Timestamps, offsets and delays are modelled as rationals (`ℚ`): the Python
source computes with floats, but every claim under scrutiny concerns the
algebraic/algorithmic behaviour of the code, not float rounding.  The Python
`sorted` builtin on numbers is modelled by a stable insertion sort (`pySorted`); on
`ℚ` any comparison sort yields the same value list.  The asyncio parts
(futures, timeouts, cancellation) are modelled by explicit outcome data:
each awaited probe either yields the response timestamps or one of the
failure outcomes the source catches (`TimeoutError`, `CancelledError`, a
generic exception — the latter is how a signature-verification failure set
on the future by `handle_resp` reaches the awaiter).
-/

namespace P2PTimeSync

/-- Python `sorted` on a list of numbers, modelled as insertion sort. -/
def insortAux (x : ℚ) : List ℚ → List ℚ
  | [] => [x]
  | y :: ys => if x ≤ y then x :: y :: ys else y :: insortAux x ys

/-- Python `sorted(l)` for numeric `l`. -/
def pySorted (l : List ℚ) : List ℚ := l.foldr insortAux []

/-- Python `int(q)`: truncation toward zero. -/
def pyInt (q : ℚ) : ℤ := if 0 ≤ q then ⌊q⌋ else ⌈q⌉

/-- Python list slicing `l[a:b]` with full negative-index and clamping
semantics. -/
def pySlice (l : List ℚ) (a b : ℤ) : List ℚ :=
  let n : ℤ := l.length
  let i := max 0 (min n (if a < 0 then a + n else a))
  let j := max 0 (min n (if b < 0 then b + n else b))
  (l.drop i.toNat).take (j - i).toNat

/-- CPython `statistics.median(data)`: sort, middle element for odd length,
mean of the two central elements for even length.  The source only calls it
on non-empty data (`statistics.median` raises on empty data; that path is
unreachable from `median_trim`). -/
def pyMedian (data : List ℚ) : ℚ :=
  let s := pySorted data
  let n := s.length
  if n % 2 = 1 then s.getD (n / 2) 0
  else (s.getD (n / 2 - 1) 0 + s.getD (n / 2) 0) / 2

/-- `median_trim` from the source (lines 55–62):
`k = int(n * trim_ratio)`, `trimmed = sorted[k : n-k] if n - 2*k >= 1 else sorted`,
result `statistics.median(trimmed)`; `None` on the empty list. -/
def median_trim (values : List ℚ) (trim_ratio : ℚ) : Option ℚ :=
  if values = [] then none
  else
    let n := values.length
    let k : ℤ := pyInt ((n : ℚ) * trim_ratio)
    let values_sorted := pySorted values
    let trimmed :=
      if 1 ≤ (n : ℤ) - 2 * k then pySlice values_sorted k ((n : ℤ) - k)
      else values_sorted
    some (pyMedian trimmed)

/-- NTP four-timestamp offset estimator (source line 299):
`theta = ((t1 - t0_wall) + (t2 - t3_wall)) / 2.0`. -/
def ntpTheta (t0_wall t1 t2 t3_wall : ℚ) : ℚ :=
  ((t1 - t0_wall) + (t2 - t3_wall)) / 2

/-- NTP four-timestamp round-trip-delay estimator (source line 300):
`delta = (t3_wall - t0_wall) - (t2 - t1)`. -/
def ntpDelta (t0_wall t1 t2 t3_wall : ℚ) : ℚ :=
  (t3_wall - t0_wall) - (t2 - t1)

/-- Outcome of the `await asyncio.wait_for(fut, ...)` in `query_peer_once`:
either the response was delivered (carrying `t1`, `t2` from the message and
the locally captured `t3` wall/mono times), or the await failed with a
timeout, a cancellation, or an exception (e.g. the `bad signature` error set
by `handle_resp`). -/
inductive AwaitOut
  | ok (t1 t2 t3_wall t3_mono : ℚ)
  | timeout
  | cancelled
  | err
deriving DecidableEq

/-- One probe attempt of `query_peer_once`: the locally captured send
timestamps and the outcome of the await. -/
structure Attempt where
  t0_wall : ℚ
  t0_mono : ℚ
  out : AwaitOut
deriving DecidableEq

/-- The sample produced by one attempt body of `query_peer_once`
(source lines 264–318), `none` when the attempt hits `continue`:
await failure, monotonic/wall RTT mismatch `> 0.5`, or `delta < 0`. -/
def attemptSample (a : Attempt) : Option (ℚ × ℚ) :=
  match a.out with
  | .ok t1 t2 t3_wall t3_mono =>
    if 1/2 < |(t3_wall - a.t0_wall) - (t3_mono - a.t0_mono)| then none
    else if ntpDelta a.t0_wall t1 t2 t3_wall < 0 then none
    else some (ntpTheta a.t0_wall t1 t2 t3_wall, ntpDelta a.t0_wall t1 t2 t3_wall)
  | _ => none

/-- The `best` accumulator update of `query_peer_once` (source lines 319–320):
`if best is None or delta < best[1]: best = (theta, delta)`. -/
def bestStep (best : Option (ℚ × ℚ)) (p : ℚ × ℚ) : Option (ℚ × ℚ) :=
  match best with
  | none => some p
  | some b => if p.2 < b.2 then some p else some b

/-- `query_peer_once` (source lines 247–321), as a function of the per-attempt
data: fold the attempts, keeping the minimum-`delta` valid sample. -/
def query_peer_once (attempts : List Attempt) : Option (ℚ × ℚ) :=
  attempts.foldl
    (fun best a =>
      match attemptSample a with
      | none => best
      | some p => bestStep best p)
    none

/-- A per-peer prober result as seen by `one_round` after
`asyncio.gather(*tasks, return_exceptions=True)`: a `(theta, delta)` tuple,
`None` (no valid sample), or a trapped exception object. -/
inductive ProbeResult
  | sample (theta delta : ℚ)
  | noSample
  | raised
deriving DecidableEq

/-- Sample-collection loop of `one_round` (source lines 346–351), offsets:
only `tuple` results contribute. -/
def collectedOffsets (results : List ProbeResult) : List ℚ :=
  results.filterMap fun r =>
    match r with
    | .sample theta _ => some theta
    | _ => none

/-- Sample-collection loop of `one_round` (source lines 346–351), delays. -/
def collectedDelays (results : List ProbeResult) : List ℚ :=
  results.filterMap fun r =>
    match r with
    | .sample _ delta => some delta
    | _ => none

/-- Whether a gathered result is a `(theta, delta)` tuple
(`isinstance(res, tuple)` in the source). -/
def isSample : ProbeResult → Bool
  | .sample _ _ => true
  | _ => false

/-- CPython `statistics.quantiles(data, n=10)` (with the default exclusive method),
cut point number `i` (1-based; the source takes `[6]`, i.e. `i = 7`):
`data` is sorted, `m = len + 1`, `j = clamp(i*m // 10, 1, len-1)`,
`delta = i*m - j*10`, result `(d[j-1]*(10 - delta) + d[j]*delta) / 10`.
The source guards this call with `len(delays) >= 10`, so the
`StatisticsError` branch for fewer than two data points is unreachable. -/
def quantilesExcl10 (data : List ℚ) (i : ℕ) : ℚ :=
  let d := pySorted data
  let ld := d.length
  let m := ld + 1
  let j0 := i * m / 10
  let j := if j0 < 1 then 1 else if ld - 1 < j0 then ld - 1 else j0
  let delta : ℤ := (i * m : ℤ) - (j : ℤ) * 10
  (d.getD (j - 1) 0 * ((10 : ℚ) - (delta : ℚ)) + d.getD j 0 * (delta : ℚ)) / 10

/-- The delay cutoff of `one_round` (source lines 364–370): the 70th
percentile via `statistics.quantiles(delays, n=10)[6]` when there are at
least 10 delays, otherwise the sorted delay at index
`min(int(len * 0.7), len - 1)`.  The `except` fallback to `max(delays)`
(source line 375) is unreachable for non-empty rational data. -/
def delayCutoff (delays : List ℚ) : ℚ :=
  if 10 ≤ delays.length then quantilesExcl10 delays 7
  else
    let sorted_delays := pySorted delays
    let idx :=
      min (pyInt ((sorted_delays.length : ℚ) * (7 / 10))).toNat
        (sorted_delays.length - 1)
    sorted_delays.getD idx 0

/-- Delay-based filter body of `one_round` (source lines 376–387):
keep the offsets whose paired delay is at most the cutoff, but only adopt
the filtered set when it still has at least `min_samples_for_update`
elements. -/
def applyDelayFilter (offsets delays : List ℚ) (min_samples : ℕ) : List ℚ :=
  let cutoff := delayCutoff delays
  let good := (offsets.zip delays).filter fun p => p.2 ≤ cutoff
  if min_samples ≤ good.length then good.map Prod.fst else offsets

/-- The configuration fields of `PeerNode` that the aggregation path reads. -/
structure Config where
  ema_alpha : ℚ
  trim_ratio : ℚ
  min_samples_for_update : ℕ

/-- The offsets list reaching `median_trim` in `one_round`: the delay filter
block runs only under `if delays:` (source line 362). -/
def roundOffsetsAfterFilter (cfg : Config) (results : List ProbeResult) :
    List ℚ :=
  let offsets := collectedOffsets results
  let delays := collectedDelays results
  if delays = [] then offsets
  else applyDelayFilter offsets delays cfg.min_samples_for_update

/-- The value of `self.offset` after `one_round` (source lines 323–406) as a
function of the gathered prober results: unchanged when the sample-count
gate fails (line 357) or when `median_trim` yields `None` (line 391),
otherwise the EMA update `(1 - alpha) * offset + alpha * theta_star`
(line 397). -/
def oneRoundOffset (cfg : Config) (offset : ℚ) (results : List ProbeResult) :
    ℚ :=
  let offsets := collectedOffsets results
  if offsets.length < cfg.min_samples_for_update then offset
  else
    match median_trim (roundOffsetsAfterFilter cfg results) cfg.trim_ratio with
    | none => offset
    | some theta_star =>
      (1 - cfg.ema_alpha) * offset + cfg.ema_alpha * theta_star

/-- The mutable node state the claims are about: `offset`, the key set of
the `pending` dict, and the `peer_keys` cache as an association list
(intact insertion order, keys unique by construction). -/
structure NodeState where
  offset : ℚ
  pending : List String
  peer_keys : List (String × String)
deriving DecidableEq

/-- `network_now` (source lines 133–135). -/
def network_now (wall_now : ℚ) (st : NodeState) : ℚ := wall_now + st.offset

/-- Result of `handle_resp` as seen by the awaiting future: dropped
(unknown/finished nonce), rejected (`fut.set_exception`), or delivered
(`fut.set_result`). -/
inductive RespOutcome
  | dropped
  | rejected
  | delivered
deriving DecidableEq

/-- A RESP message as read by `handle_resp`.  `src` is the `from` field
(`from` is reserved in Lean); the empty string models a missing/falsy
value, which the source never caches (guard `if peer_from`). -/
structure RMsg where
  nonce : String
  src : String
  t1 : ℚ
  t2 : ℚ
  vk : Option String
  sig : Option String
deriving DecidableEq

/-- Dictionary lookup `self.peer_keys.get(p)`. -/
def keyLookup (ks : List (String × String)) (p : String) : Option String :=
  (ks.find? fun e => e.1 == p).map Prod.snd

/-- `handle_resp` (source lines 202–245), crypto enabled (`HAVE_NACL`).
Abstracted inputs: `verify k payload sig` is signature verification under
key `k` over the canonical payload `(nonce, from, t1, t2)`; `parseOk`
models whether `VerifyKey(vk_hex, ...)` construction succeeds;
`pendingLive` models `fut is not None and not fut.done()`.  Control flow:
missing/falsy `vk` or `sig` raises; a cached key for `msg.from` is
preferred over `msg.vk`; the cache is written only on verification success
for a truthy, uncached `from`. -/
def handle_resp (verify : String → String × String × ℚ × ℚ → String → Bool)
    (parseOk : String → Bool) (peer_keys : List (String × String))
    (pendingLive : Bool) (msg : RMsg) :
    List (String × String) × RespOutcome :=
  if pendingLive = false then (peer_keys, .dropped)
  else
    match msg.vk, msg.sig with
    | some vk_hex, some sig_hex =>
      if vk_hex = "" ∨ sig_hex = "" then (peer_keys, .rejected)
      else
        let payload := (msg.nonce, msg.src, msg.t1, msg.t2)
        match keyLookup peer_keys msg.src with
        | some cached =>
          if verify cached payload sig_hex then (peer_keys, .delivered)
          else (peer_keys, .rejected)
        | none =>
          if parseOk vk_hex then
            if verify vk_hex payload sig_hex then
              (if msg.src ≠ "" then peer_keys ++ [(msg.src, vk_hex)]
               else peer_keys, .delivered)
            else (peer_keys, .rejected)
          else (peer_keys, .rejected)
    | _, _ => (peer_keys, .rejected)

/-- Events of one probe attempt that touch the `pending` dict or transmit. -/
inductive PEv
  | insertPending (nonce : String)
  | sendReq (nonce : String)
  | popPending (nonce : String)
deriving DecidableEq

/-- Dict key insertion `self.pending[nonce] = ...`: keys stay unique. -/
def dictInsertKey (p : List String) (n : String) : List String :=
  if n ∈ p then p else p ++ [n]

/-- Dict key removal `self.pending.pop(nonce, None)`. -/
def dictPopKey (p : List String) (n : String) : List String := p.erase n

/-- Effect of one event on the `pending` key set. -/
def applyPEv (p : List String) : PEv → List String
  | .insertPending n => dictInsertKey p n
  | .sendReq _ => p
  | .popPending n => dictPopKey p n

/-- The pending/transmit event trace of one attempt of `query_peer_once`
(source lines 255–278): insert the nonce (line 261), transmit the REQ
(line 263), then — whatever the outcome of the await — the `finally`
block pops the nonce (line 278).  The match spells out each exit path. -/
def probeAttemptEvents (nonce : String) (out : AwaitOut) : List PEv :=
  [.insertPending nonce, .sendReq nonce] ++
    (match out with
     | .ok _ _ _ _ => [.popPending nonce]
     | .timeout => [.popPending nonce]
     | .cancelled => [.popPending nonce]
     | .err => [.popPending nonce])

/-- Run a trace of pending events over a pending key set. -/
def runPEvs (p : List String) (evs : List PEv) : List String :=
  evs.foldl applyPEv p

/-- One probe attempt as a `NodeState` transition: only `pending` moves. -/
def nodeProbeAttempt (st : NodeState) (nonce : String) (out : AwaitOut) :
    NodeState :=
  { st with pending := runPEvs st.pending (probeAttemptEvents nonce out) }

/-- `handle_resp` as a `NodeState` transition: only `peer_keys` moves. -/
def nodeHandleResp (verify : String → String × String × ℚ × ℚ → String → Bool)
    (parseOk : String → Bool) (st : NodeState) (pendingLive : Bool)
    (msg : RMsg) : NodeState × RespOutcome :=
  let r := handle_resp verify parseOk st.peer_keys pendingLive msg
  ({ st with peer_keys := r.1 }, r.2)

/-- `one_round` as a `NodeState` transition: only `offset` moves
(source lines 395–398 are the sole assignment to `self.offset`). -/
def one_round (cfg : Config) (st : NodeState) (results : List ProbeResult) :
    NodeState :=
  { st with offset := oneRoundOffset cfg st.offset results }

/-- Spec-side 70th percentile, written from the words of the claim: the boundary
between the 7th and 8th decile under exclusive interpolation — 1-based
rank `r = 0.7 * (n + 1)`, value interpolated linearly between the sorted
elements at positions `⌊r⌋` and `⌊r⌋ + 1`. -/
def percentile70Spec (data : List ℚ) : ℚ :=
  let s := pySorted data
  let n := s.length
  let r : ℚ := 7 * ((n : ℚ) + 1) / 10
  let j := ⌊r⌋₊
  s.getD (j - 1) 0 + (r - (j : ℚ)) * (s.getD j 0 - s.getD (j - 1) 0)

/-! ### Helper lemmas -/

theorem length_insortAux (x : ℚ) (l : List ℚ) :
    (insortAux x l).length = l.length + 1 := by
  induction l with
  | nil => rfl
  | cons y ys ih =>
    simp only [insortAux]
    split
    · simp
    · simp [ih]

theorem length_pySorted (l : List ℚ) : (pySorted l).length = l.length := by
  induction l with
  | nil => rfl
  | cons x xs ih =>
    show (insortAux x (pySorted xs)).length = xs.length + 1
    rw [length_insortAux, ih]

theorem pyInt_of_nonneg {q : ℚ} (h : 0 ≤ q) : pyInt q = (⌊q⌋₊ : ℤ) := by
  simp [pyInt, h, Int.natCast_floor_eq_floor h]

/-- `l[a:b]` for natural in-range bounds is drop-then-take. -/
theorem pySlice_natCast (l : List ℚ) (a b : ℕ) (ha : a ≤ l.length)
    (hb : b ≤ l.length) :
    pySlice l (a : ℤ) (b : ℤ) = (l.drop a).take (b - a) := by
  simp only [pySlice]
  have hna : ¬ ((a : ℤ) < 0) := by omega
  have hnb : ¬ ((b : ℤ) < 0) := by omega
  rw [if_neg hna, if_neg hnb]
  have h1 : max (0 : ℤ) (min (l.length : ℤ) (a : ℤ)) = (a : ℤ) := by omega
  have h2 : max (0 : ℤ) (min (l.length : ℤ) (b : ℤ)) = (b : ℤ) := by omega
  rw [h1, h2, Int.toNat_natCast, Int.toNat_sub]

theorem query_foldl_filterMap (l : List Attempt) :
    ∀ acc : Option (ℚ × ℚ),
      l.foldl
        (fun best a =>
          match attemptSample a with
          | none => best
          | some p => bestStep best p)
        acc = (l.filterMap attemptSample).foldl bestStep acc := by
  induction l with
  | nil => intro acc; rfl
  | cons a l ih =>
    intro acc
    cases h : attemptSample a <;>
      simp [List.filterMap_cons, h, ih]

/-- The `best` accumulator step always yields a sample, and its value is the
old accumulator or the new pair, whichever has the smaller delay. -/
theorem bestStep_cases (acc : Option (ℚ × ℚ)) (a : ℚ × ℚ) :
    (bestStep acc a = some a ∧ ∀ b, acc = some b → a.2 ≤ b.2) ∨
    (∃ c, acc = some c ∧ bestStep acc a = some c ∧ c.2 ≤ a.2) := by
  cases acc with
  | none => exact Or.inl ⟨rfl, fun b hb => by cases hb⟩
  | some c =>
    by_cases h : a.2 < c.2
    · refine Or.inl ⟨by simp [bestStep, h], fun b hb => ?_⟩
      cases hb
      exact le_of_lt h
    · exact Or.inr ⟨c, rfl, by simp [bestStep, h], not_lt.mp h⟩

theorem bestFold_eq_none (l : List (ℚ × ℚ)) :
    ∀ acc : Option (ℚ × ℚ), l.foldl bestStep acc = none ↔
      acc = none ∧ l = [] := by
  induction l with
  | nil => intro acc; simp
  | cons a l ih =>
    intro acc
    simp only [List.foldl_cons, ih]
    constructor
    · rintro ⟨hb, -⟩
      rcases bestStep_cases acc a with ⟨h, -⟩ | ⟨c, -, h, -⟩ <;>
        rw [h] at hb <;> cases hb
    · rintro ⟨-, h⟩
      cases h

theorem bestFold_spec (l : List (ℚ × ℚ)) :
    ∀ (acc : Option (ℚ × ℚ)) (p : ℚ × ℚ), l.foldl bestStep acc = some p →
      (p ∈ l ∨ acc = some p) ∧ (∀ q ∈ l, p.2 ≤ q.2) ∧
      ∀ b, acc = some b → p.2 ≤ b.2 := by
  induction l with
  | nil =>
    intro acc p h
    simp only [List.foldl_nil] at h
    refine ⟨Or.inr h, by simp, fun b hb => ?_⟩
    rw [h] at hb
    cases hb
    exact le_refl _
  | cons a l ih =>
    intro acc p h
    simp only [List.foldl_cons] at h
    obtain ⟨h1, h2, h3⟩ := ih (bestStep acc a) p h
    rcases bestStep_cases acc a with ⟨hb, hle⟩ | ⟨c, hacc, hb, hca⟩
    · have hpa : p.2 ≤ a.2 := h3 a hb
      refine ⟨?_, ?_, ?_⟩
      · rcases h1 with h1 | h1
        · exact Or.inl (List.mem_cons_of_mem _ h1)
        · rw [hb] at h1
          cases h1
          exact Or.inl (List.mem_cons_self _ _)
      · intro q hq
        rcases List.mem_cons.mp hq with rfl | hq
        · exact hpa
        · exact h2 q hq
      · intro b hbacc
        exact le_trans hpa (hle b hbacc)
    · have hpc : p.2 ≤ c.2 := h3 c hb
      refine ⟨?_, ?_, ?_⟩
      · rcases h1 with h1 | h1
        · exact Or.inl (List.mem_cons_of_mem _ h1)
        · rw [hb] at h1
          cases h1
          exact Or.inr hacc
      · intro q hq
        rcases List.mem_cons.mp hq with rfl | hq
        · exact le_trans hpc hca
        · exact h2 q hq
      · intro b hbacc
        rw [hacc] at hbacc
        cases hbacc
        exact hpc

/-- Every sample an attempt can produce has a non-negative delay. -/
theorem attemptSample_nonneg {a : Attempt} {p : ℚ × ℚ}
    (h : attemptSample a = some p) : 0 ≤ p.2 := by
  rcases a with ⟨t0w, t0m, out⟩
  cases out with
  | ok t1 t2 t3w t3m =>
    unfold attemptSample at h
    simp only at h
    split at h
    · exact Option.noConfusion h
    · split at h
      · exact Option.noConfusion h
      · rename_i hneg
        cases h
        exact not_lt.mp hneg
  | timeout => exact Option.noConfusion h
  | cancelled => exact Option.noConfusion h
  | err => exact Option.noConfusion h

/-- With at least 10 data points the CPython exclusive-method decile cut
point 7 is exactly the rank-`0.7 * (n + 1)` linear interpolation: the
clamping is the identity and the integer `j`/`delta` arithmetic matches the
floor/fraction decomposition of the rank. -/
theorem quantilesExcl10_eq_percentile70 (data : List ℚ)
    (hn : 10 ≤ data.length) :
    quantilesExcl10 data 7 = percentile70Spec data := by
  simp only [quantilesExcl10, percentile70Spec]
  rw [length_pySorted]
  set n := data.length with hn'
  have hj0 : ¬ (7 * (n + 1) / 10 < 1) := by omega
  have hj1 : ¬ (n - 1 < 7 * (n + 1) / 10) := by omega
  rw [if_neg hj0, if_neg hj1]
  have hjf : ⌊(7 : ℚ) * ((n : ℚ) + 1) / 10⌋₊ = 7 * (n + 1) / 10 := by
    have h1 : (7 : ℚ) * ((n : ℚ) + 1) = ((7 * (n + 1) : ℕ) : ℚ) := by
      push_cast
      ring
    have h2 : (10 : ℚ) = ((10 : ℕ) : ℚ) := by norm_num
    rw [h1, h2, Nat.floor_div_nat, Nat.floor_natCast]
  rw [hjf]
  set j := 7 * (n + 1) / 10 with hj
  push_cast
  ring

theorem collectedOffsets_filter_isSample (results : List ProbeResult) :
    collectedOffsets (results.filter isSample) = collectedOffsets results := by
  induction results with
  | nil => rfl
  | cons r rs ih =>
    cases r <;>
      simp only [collectedOffsets, isSample, List.filter_cons,
        List.filterMap_cons] at ih ⊢ <;>
      simp [ih]

theorem collectedDelays_filter_isSample (results : List ProbeResult) :
    collectedDelays (results.filter isSample) = collectedDelays results := by
  induction results with
  | nil => rfl
  | cons r rs ih =>
    cases r <;>
      simp only [collectedDelays, isSample, List.filter_cons,
        List.filterMap_cons] at ih ⊢ <;>
      simp [ih]

theorem oneRoundOffset_congr (cfg : Config) (off : ℚ)
    {r1 r2 : List ProbeResult}
    (ho : collectedOffsets r1 = collectedOffsets r2)
    (hd : collectedDelays r1 = collectedDelays r2) :
    oneRoundOffset cfg off r1 = oneRoundOffset cfg off r2 := by
  simp only [oneRoundOffset, roundOffsetsAfterFilter, ho, hd]

/-! ### Claim theorems -/

/-- C1: the prober computes `theta = ((t1 - t0_wall) + (t2 - t3_wall)) / 2`
and `delta = (t3_wall - t0_wall) - (t2 - t1)` for a successful attempt;
consequently, whenever `t1 - t0 = d1 + θ` and `t3 - t2 = d2 - θ`, the
computed `delta` equals `d1 + d2`, and the computed `theta` equals the true
offset `θ` when `d1 = d2`. -/
theorem claim_C1 (t0 t1 t2 t3 t0m t3m d1 d2 θ : ℚ)
    (h01 : t1 - t0 = d1 + θ) (h23 : t3 - t2 = d2 - θ) :
    ntpDelta t0 t1 t2 t3 = d1 + d2 ∧
    (d1 = d2 → ntpTheta t0 t1 t2 t3 = θ) ∧
    (|(t3 - t0) - (t3m - t0m)| ≤ 1/2 → 0 ≤ ntpDelta t0 t1 t2 t3 →
      attemptSample ⟨t0, t0m, .ok t1 t2 t3 t3m⟩ =
        some (ntpTheta t0 t1 t2 t3, ntpDelta t0 t1 t2 t3)) := by
  refine ⟨?_, ?_, ?_⟩
  · unfold ntpDelta
    linarith
  · intro hd
    unfold ntpTheta
    rw [hd] at h01
    linarith
  · intro hm hd
    unfold attemptSample
    simp only
    rw [if_neg (not_lt.mpr hm), if_neg (not_lt.mpr hd)]

theorem claim_C1_witness :
    ntpDelta 0 3 3 4 = 2 + 2 ∧
    ((2 : ℚ) = 2 → ntpTheta 0 3 3 4 = 1) ∧
    (|((4 : ℚ) - 0) - (4 - 0)| ≤ 1/2 → 0 ≤ ntpDelta 0 3 3 4 →
      attemptSample ⟨0, 0, .ok 3 3 4 4⟩ =
        some (ntpTheta 0 3 3 4, ntpDelta 0 3 3 4)) :=
  claim_C1 0 3 3 4 0 4 2 2 1 (by norm_num) (by norm_num)

/-- C2: in a run of the prober, an attempt whose computed `delta` is
negative yields no sample (is never counted); the returned value is a valid
sample with the minimum delay — it belongs to the list of valid samples,
its delay is non-negative and no valid sample has a smaller delay — and the
prober returns `none` exactly when no attempt produced a valid sample. -/
theorem claim_C2 (attempts : List Attempt) :
    (∀ a ∈ attempts, ∀ t1 t2 t3w t3m, a.out = .ok t1 t2 t3w t3m →
      ntpDelta a.t0_wall t1 t2 t3w < 0 → attemptSample a = none) ∧
    (query_peer_once attempts = none ↔
      attempts.filterMap attemptSample = []) ∧
    ∀ p, query_peer_once attempts = some p →
      p ∈ attempts.filterMap attemptSample ∧ 0 ≤ p.2 ∧
      ∀ q ∈ attempts.filterMap attemptSample, p.2 ≤ q.2 := by
  have hfold :
      query_peer_once attempts =
        (attempts.filterMap attemptSample).foldl bestStep none :=
    query_foldl_filterMap attempts none
  refine ⟨?_, ?_, ?_⟩
  · intro a _ t1 t2 t3w t3m hout hneg
    unfold attemptSample
    rw [hout]
    simp [hneg]
  · rw [hfold, bestFold_eq_none]
    simp
  · intro p hp
    rw [hfold] at hp
    obtain ⟨h1, h2, -⟩ := bestFold_spec _ none p hp
    have hmem : p ∈ attempts.filterMap attemptSample := by
      rcases h1 with h1 | h1
      · exact h1
      · cases h1
    obtain ⟨a, -, ha⟩ := List.mem_filterMap.mp hmem
    exact ⟨hmem, attemptSample_nonneg ha, h2⟩

theorem claim_C2_witness :
    attemptSample ⟨0, 0, .ok 0 2 1 1⟩ = none ∧
    query_peer_once
        [⟨0, 0, .ok 0 2 1 1⟩, ⟨0, 0, .ok 1 1 3 3⟩, ⟨0, 0, .ok 5 5 1 1⟩] =
      some (9/2, 1) ∧
    (9/2, (1 : ℚ)) ∈
      List.filterMap attemptSample
        [⟨0, 0, .ok 0 2 1 1⟩, ⟨0, 0, .ok 1 1 3 3⟩, ⟨0, 0, .ok 5 5 1 1⟩] := by
  have h := claim_C2
    [⟨0, 0, .ok 0 2 1 1⟩, ⟨0, 0, .ok 1 1 3 3⟩, ⟨0, 0, .ok 5 5 1 1⟩]
  have hq : query_peer_once
      [⟨0, 0, .ok 0 2 1 1⟩, ⟨0, 0, .ok 1 1 3 3⟩, ⟨0, 0, .ok 5 5 1 1⟩] =
      some (9/2, 1) := by
    norm_num [query_peer_once, attemptSample, ntpDelta, ntpTheta, bestStep]
  exact ⟨h.1 _ (by simp) 0 2 1 1 rfl (by norm_num [ntpDelta]), hq,
    (h.2.2 _ hq).1⟩

/-- C3: for a non-empty list of `n` values and `k = ⌊n * trim_ratio⌋`,
`median_trim` returns the median (`statistics.median`: middle element, or
mean of the two central elements for even length) of the sorted slice
`[k, n - k)` when `n - 2k ≥ 1`, and of the full sorted list otherwise; for
the empty list it returns `none`.  (The non-negativity hypothesis on
`trim_ratio` matches the use in the claim of the floor `⌊n * trim_ratio⌋`:
the `int()` builtin of Python truncates toward zero instead for negative products.) -/
theorem claim_C3 (trim_ratio : ℚ) (h : 0 ≤ trim_ratio) :
    median_trim [] trim_ratio = none ∧
    ∀ values : List ℚ, values ≠ [] →
      median_trim values trim_ratio =
        some (pyMedian
          (if 1 ≤ values.length - 2 * ⌊(values.length : ℚ) * trim_ratio⌋₊ then
            ((pySorted values).drop ⌊(values.length : ℚ) * trim_ratio⌋₊).take
              (values.length - 2 * ⌊(values.length : ℚ) * trim_ratio⌋₊)
          else pySorted values)) := by
  constructor
  · simp [median_trim]
  · intro values hv
    simp only [median_trim, if_neg hv]
    rw [pyInt_of_nonneg (mul_nonneg (Nat.cast_nonneg _) h)]
    set nn := values.length with hnn
    set kk := ⌊(nn : ℚ) * trim_ratio⌋₊ with hkk
    by_cases hc : 1 ≤ (nn : ℤ) - 2 * (kk : ℤ)
    · have hcN : 1 ≤ nn - 2 * kk := by omega
      rw [if_pos hc, if_pos hcN]
      have hkle : kk ≤ (pySorted values).length := by
        rw [length_pySorted]
        omega
      have hble : nn - kk ≤ (pySorted values).length := by
        rw [length_pySorted]
        omega
      have hcast : (nn : ℤ) - (kk : ℤ) = ((nn - kk : ℕ) : ℤ) := by omega
      rw [hcast, pySlice_natCast _ _ _ hkle hble,
        show nn - kk - kk = nn - 2 * kk by omega]
    · rw [if_neg hc, if_neg (by omega : ¬ 1 ≤ nn - 2 * kk)]

theorem claim_C3_witness :
    median_trim [(5 : ℚ), 1, 3, 2, 4, 6, 7] (3/20) = some 4 := by
  have h := (claim_C3 (3/20) (by norm_num)).2 [(5 : ℚ), 1, 3, 2, 4, 6, 7]
    (by simp)
  rw [h]
  have hl : List.length [(5 : ℚ), 1, 3, 2, 4, 6, 7] = 7 := rfl
  have hf : ⌊((List.length [(5 : ℚ), 1, 3, 2, 4, 6, 7] : ℕ) : ℚ) * (3/20)⌋₊
      = 1 := by
    rw [hl, Nat.floor_eq_iff (by norm_num)]
    norm_num
  rw [hf, hl]
  norm_num [pySorted, insortAux, pyMedian, List.getD]

/-- C4: in the delay filter, the cutoff is the exclusive 70th percentile
(boundary between the 7th and 8th decile) when there are at least 10
delays, and the sorted delay at index `min(⌊0.7 * |delays|⌋, |delays| - 1)`
otherwise; the filter retains exactly the offsets whose paired delay is at
most the cutoff, adopting the filtered set only when it still has at least
`min_samples_for_update` elements; in a round this filter is applied to the
collected offsets/delays whenever there are any delays. -/
theorem claim_C4 (offsets delays : List ℚ) (min_samples : ℕ)
    (_hne : delays ≠ []) :
    (applyDelayFilter offsets delays min_samples =
      if min_samples ≤
          (((offsets.zip delays).filter
            fun p => p.2 ≤ delayCutoff delays).map Prod.fst).length then
        ((offsets.zip delays).filter
          fun p => p.2 ≤ delayCutoff delays).map Prod.fst
      else offsets) ∧
    (10 ≤ delays.length → delayCutoff delays = percentile70Spec delays) ∧
    (delays.length < 10 →
      delayCutoff delays =
        (pySorted delays).getD
          (min ⌊(delays.length : ℚ) * (7/10)⌋₊ (delays.length - 1)) 0) ∧
    ∀ (cfg : Config) (results : List ProbeResult),
      collectedDelays results ≠ [] →
      roundOffsetsAfterFilter cfg results =
        applyDelayFilter (collectedOffsets results) (collectedDelays results)
          cfg.min_samples_for_update := by
  refine ⟨?_, ?_, ?_, ?_⟩
  · simp [applyDelayFilter]
  · intro h10
    unfold delayCutoff
    rw [if_pos h10]
    exact quantilesExcl10_eq_percentile70 delays h10
  · intro hlt
    simp only [delayCutoff, if_neg (not_le.mpr hlt)]
    rw [pyInt_of_nonneg (mul_nonneg (Nat.cast_nonneg _) (by norm_num)),
      Int.toNat_natCast, length_pySorted]
  · intro cfg results hdne
    unfold roundOffsetsAfterFilter
    rw [if_neg hdne]

theorem claim_C4_witness :
    delayCutoff [(1 : ℚ), 2, 3, 4, 5, 6, 7, 8, 9, 10] =
      percentile70Spec [(1 : ℚ), 2, 3, 4, 5, 6, 7, 8, 9, 10] ∧
    delayCutoff [(3 : ℚ), 1, 2] =
      (pySorted [(3 : ℚ), 1, 2]).getD
        (min ⌊((List.length [(3 : ℚ), 1, 2] : ℕ) : ℚ) * (7/10)⌋₊
          (List.length [(3 : ℚ), 1, 2] - 1)) 0 :=
  ⟨(claim_C4 [] [(1 : ℚ), 2, 3, 4, 5, 6, 7, 8, 9, 10] 0 (by simp)).2.1
      (by simp),
    (claim_C4 [] [(3 : ℚ), 1, 2] 0 (by simp)).2.2.1 (by simp)⟩

/-- C5: when the gate passes and the trimmed median yields `theta_star`,
the round updates the offset to
`(1 - ema_alpha) * offset + ema_alpha * theta_star`; from `offset = 0` and
aggregate `C` one round gives `ema_alpha * C`; and the aggregator is the
only site that mutates `offset` — the response handler and the probe
attempts leave it unchanged. -/
theorem claim_C5 (cfg : Config) (st : NodeState) (results : List ProbeResult)
    (theta_star C : ℚ)
    (hgate : cfg.min_samples_for_update ≤ (collectedOffsets results).length)
    (hmed : median_trim (roundOffsetsAfterFilter cfg results) cfg.trim_ratio =
      some theta_star) :
    (one_round cfg st results).offset =
      (1 - cfg.ema_alpha) * st.offset + cfg.ema_alpha * theta_star ∧
    (st.offset = 0 → theta_star = C →
      (one_round cfg st results).offset = cfg.ema_alpha * C) ∧
    (∀ (verify : String → String × String × ℚ × ℚ → String → Bool)
        (parseOk : String → Bool) (pendingLive : Bool) (msg : RMsg),
      ((nodeHandleResp verify parseOk st pendingLive msg).1).offset =
        st.offset) ∧
    ∀ (nonce : String) (out : AwaitOut),
      (nodeProbeAttempt st nonce out).offset = st.offset := by
  have h1 : (one_round cfg st results).offset =
      (1 - cfg.ema_alpha) * st.offset + cfg.ema_alpha * theta_star := by
    show oneRoundOffset cfg st.offset results = _
    simp only [oneRoundOffset, if_neg (not_lt.mpr hgate), hmed]
  refine ⟨h1, ?_, fun _ _ _ _ => rfl, fun _ _ => rfl⟩
  intro h0 hC
  rw [h1, h0, hC]
  ring

theorem claim_C5_witness :
    (one_round ⟨3/10, 3/20, 1⟩ ⟨0, [], []⟩ [.sample 2 1]).offset =
      (1 - 3/10) * 0 + (3/10) * 2 ∧
    (one_round ⟨3/10, 3/20, 1⟩ ⟨0, [], []⟩ [.sample 2 1]).offset =
      (3/10) * 2 := by
  have hcut : delayCutoff [(1 : ℚ)] = 1 := by
    have hpy : pyInt ((7 : ℚ)/10) = 0 := by
      rw [pyInt, if_pos (by norm_num), Int.floor_eq_iff]
      norm_num
    simp only [delayCutoff]
    norm_num [pySorted, insortAux, hpy, List.getD]
  have hfil : roundOffsetsAfterFilter ⟨3/10, 3/20, 1⟩ [.sample 2 1] =
      [2] := by
    simp only [roundOffsetsAfterFilter, collectedOffsets, collectedDelays,
      List.filterMap]
    norm_num [applyDelayFilter, hcut, List.filter]
  have hmt : median_trim [(2 : ℚ)] (3/20) = some 2 := by
    have hpy2 : pyInt ((3 : ℚ)/20) = 0 := by
      rw [pyInt, if_pos (by norm_num), Int.floor_eq_iff]
      norm_num
    simp only [median_trim]
    norm_num [pySorted, insortAux, pyMedian, pySlice, List.getD, hpy2]
  have h := claim_C5 ⟨3/10, 3/20, 1⟩ ⟨0, [], []⟩ [.sample 2 1] 2 2
    (by decide) (by rw [hfil]; exact hmt)
  exact ⟨h.1, h.2.1 rfl rfl⟩

/-- C6: a round that collects fewer valid samples than
`min_samples_for_update` emits no update: the node state — in particular
its `offset` field — is unchanged. -/
theorem claim_C6 (cfg : Config) (st : NodeState) (results : List ProbeResult)
    (h : (collectedOffsets results).length < cfg.min_samples_for_update) :
    (one_round cfg st results).offset = st.offset ∧
    one_round cfg st results = st := by
  have hoff : oneRoundOffset cfg st.offset results = st.offset := by
    simp only [oneRoundOffset, if_pos h]
  exact ⟨hoff, by simp only [one_round, hoff]⟩

theorem claim_C6_witness :
    (one_round ⟨3/10, 3/20, 5⟩ ⟨7, ["n"], [("p", "k")]⟩
        [.sample 1 1]).offset = 7 ∧
    one_round ⟨3/10, 3/20, 5⟩ ⟨7, ["n"], [("p", "k")]⟩ [.sample 1 1] =
      ⟨7, ["n"], [("p", "k")]⟩ :=
  claim_C6 ⟨3/10, 3/20, 5⟩ ⟨7, ["n"], [("p", "k")]⟩ [.sample 1 1] (by decide)

/-- C9: an exceptional prober result never aborts the round — `one_round`
is a total function of the gathered results, its outcome is unchanged by
removing trapped exceptions (or by inserting one anywhere), and the
aggregation consumes exactly the `(theta, delta)` tuple results. -/
theorem claim_C9 (cfg : Config) (st : NodeState)
    (results xs ys : List ProbeResult) :
    one_round cfg st results = one_round cfg st (results.filter isSample) ∧
    one_round cfg st (xs ++ .raised :: ys) = one_round cfg st (xs ++ ys) ∧
    collectedOffsets results = collectedOffsets (results.filter isSample) := by
  refine ⟨?_, ?_, (collectedOffsets_filter_isSample results).symm⟩
  · simp only [one_round]
    rw [oneRoundOffset_congr cfg st.offset
      (collectedOffsets_filter_isSample results).symm
      (collectedDelays_filter_isSample results).symm]
  · have ho : collectedOffsets (xs ++ ProbeResult.raised :: ys) =
        collectedOffsets (xs ++ ys) := by
      simp [collectedOffsets, List.filterMap_append, List.filterMap_cons]
    have hd : collectedDelays (xs ++ ProbeResult.raised :: ys) =
        collectedDelays (xs ++ ys) := by
      simp [collectedDelays, List.filterMap_append, List.filterMap_cons]
    simp only [one_round]
    rw [oneRoundOffset_congr cfg st.offset ho hd]

/-- C10: a timeout, a cancellation, or an exception delivered to the
awaiting future (a signature-verification failure reaches the awaiter this
way) each produce no sample for that attempt, and `query_peer_once` simply
continues with the remaining attempts: the failed attempt is invisible to
the result. -/
theorem claim_C10 (xs ys : List Attempt) (a : Attempt)
    (h : a.out = .timeout ∨ a.out = .cancelled ∨ a.out = .err) :
    attemptSample a = none ∧
    query_peer_once (xs ++ a :: ys) = query_peer_once (xs ++ ys) := by
  have hnone : attemptSample a = none := by
    rcases h with h | h | h <;> simp [attemptSample, h]
  refine ⟨hnone, ?_⟩
  unfold query_peer_once
  rw [List.foldl_append, List.foldl_append, List.foldl_cons, hnone]

theorem claim_C10_witness :
    attemptSample ⟨0, 0, .timeout⟩ = none ∧
    query_peer_once [⟨0, 0, .timeout⟩, ⟨0, 0, .ok 5 5 1 1⟩] =
      query_peer_once [⟨0, 0, .ok 5 5 1 1⟩] :=
  claim_C10 [] [⟨0, 0, .ok 5 5 1 1⟩] ⟨0, 0, .timeout⟩ (Or.inl rfl)

/-- C7: the peer-key cache is trust-on-first-use.  Once a key is cached for
peer `P`: (a) no RESP from `P` ever changes the cache; (b) a RESP from `P`
carrying a different `vk`, whose signature is valid only under that new
key, fails verification (the cached key is used) and leaves the cache
untouched.  (c) The single write site: a verified response from an
uncached, truthy peer appends exactly one binding for it. -/
theorem claim_C7 (verify : String → String × String × ℚ × ℚ → String → Bool)
    (parseOk : String → Bool) (peer_keys : List (String × String))
    (P cachedK : String) (hP : keyLookup peer_keys P = some cachedK) :
    (∀ (pendingLive : Bool) (msg : RMsg), msg.src = P →
      (handle_resp verify parseOk peer_keys pendingLive msg).1 = peer_keys) ∧
    (∀ (msg : RMsg) (v s : String), msg.src = P → msg.vk = some v →
      msg.sig = some s → v ≠ "" → s ≠ "" →
      verify cachedK (msg.nonce, msg.src, msg.t1, msg.t2) s = false →
      verify v (msg.nonce, msg.src, msg.t1, msg.t2) s = true →
      handle_resp verify parseOk peer_keys true msg =
        (peer_keys, .rejected)) ∧
    ∀ (keys0 : List (String × String)) (msg : RMsg) (v s : String),
      keyLookup keys0 msg.src = none → msg.src ≠ "" → msg.vk = some v →
      msg.sig = some s → ¬ (v = "" ∨ s = "") → parseOk v = true →
      verify v (msg.nonce, msg.src, msg.t1, msg.t2) s = true →
      (handle_resp verify parseOk keys0 true msg).1 =
        keys0 ++ [(msg.src, v)] := by
  refine ⟨?_, ?_, ?_⟩
  · intro pendingLive msg hsrc
    subst hsrc
    cases pendingLive with
    | false => rfl
    | true =>
      simp only [handle_resp, if_neg (by simp : ¬ (true = false))]
      cases hvk : msg.vk with
      | none => rfl
      | some v =>
        cases hsig : msg.sig with
        | none => rfl
        | some s =>
          dsimp only
          by_cases hemp : v = "" ∨ s = ""
          · rw [if_pos hemp]
          · rw [if_neg hemp, hP]
            dsimp only
            by_cases hv :
              verify cachedK (msg.nonce, msg.src, msg.t1, msg.t2) s = true
            · rw [if_pos hv]
            · rw [if_neg hv]
  · intro msg v s hsrc hvk hsig hv0 hs0 hvfalse hvtrue
    subst hsrc
    simp only [handle_resp, if_neg (by simp : ¬ (true = false)), hvk, hsig]
    rw [if_neg (by simp [hv0, hs0] : ¬ (v = "" ∨ s = "")), hP]
    dsimp only
    rw [hvfalse]
    simp
  · intro keys0 msg v s hnone hne hvk hsig hemp hparse hver
    simp only [handle_resp, if_neg (by simp : ¬ (true = false)), hvk, hsig]
    rw [if_neg hemp, hnone]
    dsimp only
    rw [if_pos hparse, if_pos hver, if_pos hne]

theorem claim_C7_witness :
    handle_resp (fun k _ s => k == s) (fun _ => true) [("p", "k1")] true
        ⟨"n", "p", 0, 0, some ("k2"), some ("k2")⟩ =
      ([("p", "k1")], .rejected) :=
  (claim_C7 (fun k _ s => k == s) (fun _ => true) [("p", "k1")] "p" "k1"
      (by decide)).2.1
    ⟨"n", "p", 0, 0, some ("k2"), some ("k2")⟩ "k2" "k2" rfl rfl rfl (by decide)
    (by decide) (by decide) (by decide)

/-- C8: a probe attempt inserts the nonce into `pending` before the REQ is
transmitted, and on every exit path of the await the `finally` block
removes it: after the attempt the nonce is not pending, the pending table
has its pre-probe size, and in fact is exactly the pre-probe table. -/
theorem claim_C8 (nonce : String) (out : AwaitOut) (p : List String)
    (h : nonce ∉ p) :
    (∃ l₁ l₂ l₃, probeAttemptEvents nonce out =
      l₁ ++ PEv.insertPending nonce :: (l₂ ++ PEv.sendReq nonce :: l₃)) ∧
    nonce ∉ runPEvs p (probeAttemptEvents nonce out) ∧
    (runPEvs p (probeAttemptEvents nonce out)).length = p.length ∧
    runPEvs p (probeAttemptEvents nonce out) = p := by
  have hev : probeAttemptEvents nonce out =
      [PEv.insertPending nonce, PEv.sendReq nonce, PEv.popPending nonce] := by
    cases out <;> rfl
  have hrun : runPEvs p (probeAttemptEvents nonce out) = p := by
    rw [hev]
    show dictPopKey (dictInsertKey p nonce) nonce = p
    rw [dictInsertKey, if_neg h, dictPopKey,
      List.erase_append_right _ h]
    simp
  refine ⟨⟨[], [], [PEv.popPending nonce], by rw [hev]; rfl⟩, ?_, ?_, hrun⟩
  · rw [hrun]
    exact h
  · rw [hrun]

theorem claim_C8_witness :
    (∃ l₁ l₂ l₃, probeAttemptEvents ("ab") .timeout =
      l₁ ++ PEv.insertPending ("ab") :: (l₂ ++ PEv.sendReq ("ab") :: l₃)) ∧
    "ab" ∉ runPEvs ["x"] (probeAttemptEvents ("ab") .timeout) ∧
    (runPEvs ["x"] (probeAttemptEvents ("ab") .timeout)).length =
      (["x"] : List String).length ∧
    runPEvs ["x"] (probeAttemptEvents ("ab") .timeout) = ["x"] :=
  claim_C8 ("ab") .timeout ["x"] (by decide)

end P2PTimeSync
